import Mathlib

/-!
Shallow embedding of the tree-assembly core of
`src/lib/panino/plugins/parsers/jsd_parser.js` (the `process_jsd` function and
its helpers), together with theorems settling the specification's claims.

The embedding starts after the external parsing stages: its input is the
`merged` docset list (the value of the JS variable `merged` at line 82 of the
source), the `options` record and the `file` name.  JavaScript objects with
optional fields are modelled as structures of `Option` fields; `undefined`
is `none`.  JS objects used as string-keyed maps are modelled as association
lists that update in place and append new keys, which matches JS insertion
order for the (non-integer-like) keys this program produces.
-/

namespace JsdParser

/-- JS values that are only inspected for truthiness or stored verbatim:
the `bound` field starts as a boolean-like flag and is overwritten with an
id string by the post-processing pass. -/
inductive BVal where
  | bool : Bool → BVal
  | str : String → BVal
deriving DecidableEq, Repr

/-- JS truthiness for the values `BVal` can hold. -/
def BVal.truthy : BVal → Bool
  | .bool b => b
  | .str s => !(s == "")

/-- Truthiness of a possibly-undefined value. -/
def truthyB : Option BVal → Bool
  | none => false
  | some v => v.truthy

/-- Truthiness of a possibly-undefined string (`undefined` and `""` are falsy). -/
def truthyS : Option String → Bool
  | none => false
  | some s => !(s == "")

/-- One entry of a docset's `params` array (fields read at lines 142-167). -/
structure Param where
  name : String := ""
  doc : String := ""
  type : String := ""
  optional : Option Bool := none
deriving DecidableEq, Repr

/-- The docset's `return` tag (fields read at lines 171-179). -/
structure RetSpec where
  type : String := ""
  description : String := ""
deriving DecidableEq, Repr

/-- The docset's `author` tag: the source tests `author.length > 0` and then
reads `author.doc` (lines 323-324). -/
structure AuthorTag where
  length : Nat := 0
  doc : String := ""
deriving DecidableEq, Repr

/-- A merged docset as consumed by the assembly code (lines 82-215).  Tag
objects of which the source only ever reads one field (`inheritdoc.src`,
`allowchild.doc`, `define.doc`, `see.name`, `version.doc`, `since.doc`) are
modelled by that field's value. -/
structure Docset where
  tagname : String := ""
  name : String := ""
  doc : Option String := none
  linenr : Nat := 0
  type : Option String := none
  params : Option (List Param) := none
  ret : Option RetSpec := none
  inherits : Option (List String) := none
  inheritdoc : Option String := none
  allowchild : Option String := none
  define : Option String := none
  see : Option String := none
  author : Option AuthorTag := none
  version : Option String := none
  since : Option String := none
  priv : Option BVal := none
  experimental : Option BVal := none
  chainable : Option BVal := none
  cancelable : Option BVal := none
  bubbles : Option BVal := none
deriving DecidableEq, Repr

/-- An argument record pushed at lines 144-164. -/
structure Arg where
  name : String := ""
  description : String := ""
  types : List String := []
  optional : Option Bool := none
deriving DecidableEq, Repr

/-- The `ret` object of the method/event branch (line 134, filled at 171-180);
it stays empty when the docset has no `return`. -/
structure RetInfo where
  type : Option String := none
  isArray : Option Bool := none
  description : Option String := none
deriving DecidableEq, Repr

/-- An entry of the `returns` array built for property/attribute/binding
nodes (lines 195, 201, 207). -/
structure SigRet where
  type : Option String := none
deriving DecidableEq, Repr

/-- A signature object.  The method/event branch pushes
`\x7b arguments, return \x7d` (line 182, here field `ret`); the
property/attribute/binding branches push `\x7b arguments: undefined,
returns: [...] \x7d` (lines 195/201/207). -/
structure Signature where
  arguments : Option (List Arg) := none
  ret : Option RetInfo := none
  returns : Option (List SigRet) := none
deriving DecidableEq, Repr

/-- A documentation node.  `priv` stands for the source's `private` field
(a reserved word in Lean); `«section»` is never written by this file's code
but is read by the post-processing pass (lines 241, 255). -/
structure Node where
  id : String := ""
  type : String := ""
  inheritdoc : Option String := none
  description : Option String := none
  short_description : Option String := none
  line : Nat := 0
  priv : Option BVal := none
  experimental : Option BVal := none
  chainable : Option BVal := none
  related_to : Option String := none
  author : Option String := none
  version : Option String := none
  since : Option String := none
  inherits : Option (List String) := none
  allowchild : Option String := none
  define : Option String := none
  signatures : Option (List Signature) := none
  arguments : Option (List Arg) := none
  cancelable : Option BVal := none
  bubbles : Option BVal := none
  bound : Option BVal := none
  aliases : Option (List String) := none
  children : Option (List String) := none
  file : Option String := none
  subclasses : Option (List String) := none
  «section» : Option String := none
deriving DecidableEq, Repr

/-- The recognized configuration option (`options.globalNS`). -/
structure Options where
  globalNS : Option String := none
deriving DecidableEq, Repr

/-- Warnings printed by the assembly code (lines 156, 212). -/
inductive Warning where
  | commaTypes : String → Warning
  | unknownTag : String → String → Warning
deriving DecidableEq, Repr

/-- String-keyed JS object used as a map: assignment to an existing key
replaces the value in place, assignment to a new key appends. -/
def store (l : List (String × Node)) (k : String) (v : Node) : List (String × Node) :=
  if l.any (fun p => p.1 == k) then
    l.map (fun p => if p.1 == k then (k, v) else p)
  else
    l ++ [(k, v)]

/-- Reading a key of a JS object map. -/
def lookupKey (l : List (String × Node)) (k : String) : Option Node :=
  (l.find? (fun p => p.1 == k)).map (fun p => p.2)

/-- The source's `trim` helper (line 336): `replace(/^ +| +$/g, '')` strips
leading and trailing space characters only. -/
def trim (s : String) : String :=
  ⟨(((s.data.dropWhile (· == ' ')).reverse.dropWhile (· == ' ')).reverse)⟩

/-- JS `String.prototype.split` with a one-character separator. -/
def splitCharAux (c : Char) : List Char → List Char → List String
  | [], cur => [⟨cur.reverse⟩]
  | x :: xs, cur =>
      if x == c then ⟨cur.reverse⟩ :: splitCharAux c xs []
      else splitCharAux c xs (x :: cur)

/-- JS `s.split(c)` for a single-character separator string. -/
def splitChar (s : String) (c : Char) : List String := splitCharAux c s.data []

/-- JS `s.lastIndexOf(c)` for a one-character search string: the index of the
last occurrence, `-1` when absent. -/
def lastIndexOfCharAux (c : Char) : List Char → Nat → Int → Int
  | [], _, acc => acc
  | x :: xs, k, acc =>
      lastIndexOfCharAux c xs (k + 1) (if x == c then (k : Int) else acc)

/-- JS `s.lastIndexOf(c)` over the whole string. -/
def lastIndexOfChar (s : String) (c : Char) : Int := lastIndexOfCharAux c s.data 0 (-1)

/-- JS `s.indexOf(c)` for a one-character search string: the index of the
first occurrence, `-1` when absent. -/
def indexOfCharAux (c : Char) : List Char → Nat → Int
  | [], _ => -1
  | x :: xs, k => if x == c then (k : Int) else indexOfCharAux c xs (k + 1)

/-- JS `s.indexOf(c)` over the whole string. -/
def indexOfChar (s : String) (c : Char) : Int := indexOfCharAux c s.data 0

/-- The fatal-name test of line 123:
`memberName.lastIndexOf(".") === memberName.length - 1`. -/
def fatalName (m : String) : Bool :=
  lastIndexOfChar m '.' == (m.data.length : Int) - 1

/-- The test `/^@todo/i.test(doc)` of line 103: does the string start with
`@todo`, ignoring letter case. -/
def todoTest (d : String) : Bool :=
  (d.data.take 5).map Char.toLower == "@todo".data

/-- The predicate of the filter at lines 102-110: keep a docset when its doc
is defined and does not start with `@todo`, or when it has `inheritdoc`. -/
def keepDocset (i : Docset) : Bool :=
  if (match i.doc with
      | some d => !(todoTest d)
      | none => false) then
    true
  else if i.inheritdoc.isSome then
    true
  else
    false

/-- The first directly matched substring of
`description.replace(/\n\n[\s\S]*$/, '\n')` (line 306): everything from the
first blank line on is replaced by a single newline. -/
def firstBlankAux : List Char → Nat → Option Nat
  | [], _ => none
  | [_], _ => none
  | x :: y :: xs, k =>
      if x == '\n' && y == '\n' then some k
      else firstBlankAux (y :: xs) (k + 1)

/-- The source's short-description computation (line 306). -/
def shortDescription (d : String) : String :=
  match firstBlankAux d.data 0 with
  | none => d
  | some k => ⟨d.data.take k ++ ['\n']⟩

/-- The `createBasicTranslation` helper (lines 293-334).  The source is
sometimes called with a fourth argument, which its definition ignores.
When both `inheritdoc` and `doc` are `undefined` the original would throw on
line 306; that case is unreachable because every caller has checked `doc`
or passed the docset through the `keepDocset` filter. -/
def createBasicTranslation (memberName : String) (type : String) (i : Docset) : Node :=
  let node : Node := { id := memberName, type := type, line := i.linenr }
  let node :=
    match i.inheritdoc with
    | some src => { node with inheritdoc := some src }
    | none =>
        { node with
          description := i.doc
          short_description := i.doc.map shortDescription }
  let node := { node with priv := i.priv }
  let node := { node with experimental := i.experimental }
  let node := { node with chainable := i.chainable }
  let node := { node with related_to := i.see }
  let node :=
    match i.author with
    | some a => if a.length > 0 then { node with author := some a.doc } else node
    | none => node
  let node := { node with version := i.version }
  let node := { node with since := i.since }
  node

/-- The class node built at lines 85-94: the basic translation plus the
`inherits` / `allowchild` / `define` fields when present. -/
def classNodeOf (i : Docset) : Node :=
  let node := createBasicTranslation i.name "class" i
  let node :=
    match i.inherits with
    | some l => if l.length > 0 then { node with inherits := some l } else node
    | none => node
  let node :=
    match i.allowchild with
    | some a => { node with allowchild := some a }
    | none => node
  let node :=
    match i.define with
    | some d => { node with define := some d }
    | none => node
  node

/-- Does this docset get picked up (and rejected from the working list) by
the class scan at lines 82-98: `tagname === "class" && doc !== undefined`. -/
def isClassDoc (i : Docset) : Bool :=
  i.tagname == "class" && i.doc.isSome

/-- One step of the `_.reject` at lines 82-98: a class docset with a doc
overwrites the class prefix and stores a class node; anything else is kept. -/
def classStep (st : Option String × List (String × Node) × List Docset) (i : Docset) :
    Option String × List (String × Node) × List Docset :=
  if isClassDoc i then
    (some i.name, store st.2.1 i.name (classNodeOf i), st.2.2)
  else
    (st.1, st.2.1, st.2.2 ++ [i])

/-- The class scan (lines 82-98): returns the final `classPrefix`, the
`nodes` map seeded with the class nodes, and `remainingNodes`. -/
def classPass (merged : List Docset) : Option String × List (String × Node) × List Docset :=
  merged.foldl classStep (none, [], [])

/-- Member-name computation for one docset (lines 113-122).  The class
prefix is a mutable variable in the source — line 117 can assign the global
namespace to it — so the possibly updated prefix is returned as well.
`[classPrefix, name].join(joinChar)` stringifies `undefined` to `""`. -/
def memberNameOf (options : Options) (cp : Option String) (i : Docset) :
    String × Option String :=
  let isEvent := i.tagname == "event"
  let joinChar := if isEvent then "@" else "."
  let (cp, joinChar) :=
    if cp.isNone && truthyS options.globalNS then (options.globalNS, joinChar)
    else if options.globalNS.isNone then (cp, "")
    else (cp, joinChar)
  ((cp.getD "") ++ joinChar ++ i.name, cp)

/-- The type list of one argument (lines 150-160), with a flag telling
whether the comma warning of line 156 fires.  A pipe-separated type string
is split and each piece trimmed; a comma-separated one only warns (nothing
is pushed); otherwise the string is pushed as the single type. -/
def argTypes (ty : String) : List String × Bool :=
  if indexOfChar ty '|' ≥ 0 then ((splitChar ty '|').map trim, false)
  else if indexOfChar ty ',' ≥ 0 then ([], true)
  else ([ty], false)

/-- The argument record built for one param (lines 144-162), paired with the
warnings it emits. -/
def buildArg (memberName : String) (p : Param) : Arg × List Warning :=
  let t := argTypes p.type
  ({ name := p.name, description := p.doc, types := t.1, optional := p.optional },
   if t.2 then [Warning.commaTypes memberName] else [])

/-- The bracket-stripping of the return type (lines 172-175):
`substr(1, length - 2)` drops the first and last characters. -/
def stripEnds (t : String) : String :=
  ⟨(t.data.drop 1).take (t.data.length - 2)⟩

/-- The `return` handling of the method/event branch (lines 171-180): a type
whose `indexOf("[")` is `0` is stripped and marked as array. -/
def buildRet (r : RetSpec) : RetInfo :=
  if indexOfChar r.type '[' == 0 then
    { type := some (stripEnds r.type), isArray := some true,
      description := some r.description }
  else
    { type := some r.type, isArray := none, description := some r.description }

/-- The `ret` object of lines 134 and 171-180: empty when the docset has no
return spec. -/
def retOf : Option RetSpec → RetInfo
  | none => {}
  | some r => buildRet r

/-- State threaded through the member loop of lines 112-215: the (mutable)
class prefix, the `nodes` map, and the warnings printed so far. -/
structure NState where
  cp : Option String := none
  nodes : List (String × Node) := []
  ws : List Warning := []
deriving DecidableEq, Repr

/-- The node stored by the method/event branch (lines 131-189). -/
def methodNodeOf (memberName : String) (i : Docset) : Node × List Warning :=
  let isEvent := i.tagname == "event"
  let node := createBasicTranslation memberName (if isEvent then "event" else "method") i
  let (args, ws) :=
    match i.params with
    | none => (none, [])
    | some ps =>
        let built := ps.map (buildArg memberName)
        (some (built.map (fun b => b.1)),
         built.foldl (fun acc b => acc ++ b.2) ([] : List Warning))
  let node :=
    { node with
      arguments := args
      signatures := some [{ arguments := args, ret := some (retOf i.ret) }] }
  let node :=
    if isEvent then
      { node with cancelable := i.cancelable, bubbles := i.bubbles }
    else node
  (node, ws)

/-- The node stored by the property/attribute/binding branches
(lines 193-209): one synthetic signature with `arguments: undefined` and a
one-element `returns` array holding the docset's `type`. -/
def plainNodeOf (memberName : String) (kind : String) (i : Docset) : Node :=
  let node := createBasicTranslation memberName kind i
  { node with
    signatures := some [{ arguments := none, returns := some [{ type := i.type }] }] }

/-- One iteration of the member loop (lines 112-215).  A member name whose
last `.` is its final character aborts the whole run (`process.exit(1)` at
line 128) unless the docset has `inheritdoc`; the error value carries the
offending docset, which the source prints. -/
def nameStep (options : Options) (file : String) (st : NState) (i : Docset) :
    Except Docset NState :=
  let memberName := (memberNameOf options st.cp i).1
  let cp := (memberNameOf options st.cp i).2
  if fatalName memberName && i.inheritdoc.isNone then
    Except.error i
  else if i.tagname == "method" || i.tagname == "event" then
    Except.ok { cp := cp, nodes := store st.nodes memberName (methodNodeOf memberName i).1,
                ws := st.ws ++ (methodNodeOf memberName i).2 }
  else if i.tagname == "property" then
    Except.ok { cp := cp, nodes := store st.nodes memberName (plainNodeOf memberName "property" i), ws := st.ws }
  else if i.tagname == "attribute" then
    Except.ok { cp := cp, nodes := store st.nodes memberName (plainNodeOf memberName "attribute" i), ws := st.ws }
  else if i.tagname == "binding" then
    Except.ok { cp := cp, nodes := store st.nodes memberName (plainNodeOf memberName "binding" i), ws := st.ws }
  else
    Except.ok { cp := cp, nodes := st.nodes, ws := st.ws ++ [Warning.unknownTag i.tagname file] }

/-- The member loop (lines 112-215) over the filtered remaining docsets. -/
def namePass (options : Options) (file : String) (cp : Option String)
    (nodes : List (String × Node)) (ds : List Docset) : Except Docset NState :=
  ds.foldlM (nameStep options file) { cp := cp, nodes := nodes, ws := [] }

/-- Line terminators that the `.` of a JS regex does not match. -/
def isLineTerm (c : Char) : Bool :=
  c == '\n' || c == '\r' || c == (Char.ofNat 0x2028) || c == (Char.ofNat 0x2029)

/-- Does position `k` qualify as the separator matched by
`/(.+)\.(.+)$/` in `cs`: a `.` with a non-terminator character before it and
at least one character after it, all of them non-terminators. -/
def sepDotAt (cs : List Char) (k : Nat) : Bool :=
  decide (1 ≤ k) && decide (k + 1 < cs.length) && (cs.getD k ' ' == '.') &&
    !(isLineTerm (cs.getD (k - 1) ' ')) && (cs.drop (k + 1)).all (fun c => !(isLineTerm c))

/-- The position rewritten by `id.replace(/(.+)\.(.+)$/, '$1#$2')` (line 248):
the greedy first group selects the last qualifying dot; `none` when the
regex does not match. -/
def lastMidDot (cs : List Char) : Option Nat :=
  (List.range cs.length).foldl (fun acc k => if sepDotAt cs k then some k else acc) none

/-- The clone-id rewrite of line 248; the id is unchanged when the regex
does not match. -/
def boundRewrite (id : String) : String :=
  match lastMidDot id.data with
  | none => id
  | some k => ⟨id.data.set k '#'⟩

/-- The unconditional preparation of every node in the post-processing pass
(lines 222-230): hierarchy helpers, source file, and `subclasses` for
classes. -/
def prepNode (file : String) (node : Node) : Node :=
  let node := { node with aliases := some [], children := some [], file := some file }
  if node.type == "class" then { node with subclasses := some [] } else node

/-- One iteration of the post-processing `_.each` (lines 218-257): sections
go to the registry under their bare id; everything else is stored under its
section-prefixed key; a bound method additionally stores a cross-linked
clone whose id has the final `.` separator rewritten to `#`. -/
def postStep (file : String) (list : List (String × Node)) (nodeIn : Node) :
    List (String × Node) :=
  let node := prepNode file nodeIn
  if node.type == "section" then
    store list node.id node
  else
    let key := (node.«section».getD "") ++ "." ++ node.id
    if node.type == "method" && truthyB node.bound then
      let cloneId := boundRewrite node.id
      let node := { node with bound := some (BVal.str cloneId) }
      let clone := { node with id := cloneId, bound := some (BVal.str nodeIn.id) }
      store (store list key node) ((node.«section».getD "") ++ "." ++ cloneId) clone
    else
      store list key node

/-- The post-processing pass (lines 218-257) over the values of `nodes` in
insertion order, building the `list` delivered to the callback. -/
def postPass (file : String) (nodes : List (String × Node)) : List (String × Node) :=
  nodes.foldl (fun list p => postStep file list p.2) []

/-- The assembly part of `process_jsd` (lines 82-270), from the merged
docset list to the result handed to the callback; a fatal naming error is
the `Except.error` carrying the offending docset.  The warnings emitted
along the way are returned alongside the map. -/
def process_jsd (merged : List Docset) (options : Options) (file : String) :
    Except Docset (List (String × Node) × List Warning) :=
  let cp := (classPass merged).1
  let nodes := (classPass merged).2.1
  let remainingNodes := (classPass merged).2.2.filter keepDocset
  match namePass options file cp nodes remainingNodes with
  | Except.error i => Except.error i
  | Except.ok st => Except.ok (postPass file st.nodes, st.ws)

/-- Is an `Except` value a success. -/
def isOkE {α β : Type} : Except α β → Bool
  | Except.ok _ => true
  | Except.error _ => false

/-- The result map of a successful run (empty on a fatal error). -/
def okList : Except Docset (List (String × Node) × List Warning) → List (String × Node)
  | Except.ok r => r.1
  | Except.error _ => []

/-- The state of a successful member-loop step (empty on a fatal error). -/
def okNState : Except Docset NState → NState
  | Except.ok st => st
  | Except.error _ => {}

/-! Concrete inputs used by counterexamples and witnesses. -/

/-- A class docset named `Foo`. -/
def fooClass : Docset := { tagname := "class", name := "Foo", doc := some "A class." }

/-- A method docset named `bar` with no explicit namespace. -/
def barMethod : Docset := { tagname := "method", name := "bar", doc := some "A method." }

/-- An event docset named `change`. -/
def changeEvent : Docset := { tagname := "event", name := "change", doc := some "An event." }

/-- An event docset with an empty name: its member name under class `Foo`
is `Foo@`, which ends at the event join character. -/
def emptyEvent : Docset := { tagname := "event", name := "", doc := some "An event." }

/-- A method docset with an empty name: its member name under class `Foo`
is `Foo.`, which ends at the join character. -/
def emptyMethod : Docset := { tagname := "method", name := "", doc := some "A method." }

/-- A method docset with an empty name but an `inheritdoc` reference. -/
def emptyInherit : Docset := { tagname := "method", name := "", inheritdoc := some "Other#m" }

/-- A property docset named `p` of type `string`. -/
def propDs : Docset :=
  { tagname := "property", name := "p", doc := some "A property.", type := some "string" }

/-- A method docset named `m` with one pipe-typed parameter. -/
def methodWithParam : Docset :=
  { tagname := "method", name := "m", doc := some "A method.",
    params := some [{ name := "a", doc := "arg doc", type := "string|number" }] }

/-- A method docset named `n` without parameters. -/
def methodNoParam : Docset := { tagname := "method", name := "n", doc := some "A method." }

/-- A bound method node whose id has a `.` separator. -/
def boundDotted : Node :=
  { id := "Element.foo", type := "method", bound := some (BVal.str "element") }

/-- A bound method node whose id has no `.` at all, so the clone-id rewrite
regex does not match. -/
def boundDotless : Node :=
  { id := "bar", type := "method", bound := some (BVal.str "element") }

/-- Class docsets named `A` and `B`, both with docs. -/
def classA : Docset := { tagname := "class", name := "A", doc := some "First." }

/-- The second of the two class docsets. -/
def classB : Docset := { tagname := "class", name := "B", doc := some "Second." }

/-! Helper lemmas shared by the claim theorems. -/

theorem lookupKey_store_self (l : List (String × Node)) (k : String) (v : Node) :
    lookupKey (store l k v) k = some v := by
  unfold store lookupKey
  split
  · rename_i h
    induction l with
    | nil => simp at h
    | cons p ps ih =>
        by_cases hp : p.1 == k
        · simp [List.find?, hp]
        · simp only [List.any_cons, hp, Bool.false_or] at h
          simpa [List.find?, hp] using ih h
  · induction l with
    | nil => simp [List.find?]
    | cons p ps ih =>
        rename_i h
        simp only [List.any_cons, Bool.or_eq_true, not_or] at h
        have hp : (p.1 == k) = false := by
          cases hpk : p.1 == k with
          | true => exact absurd hpk h.1
          | false => rfl
        simp only [List.cons_append, List.find?, hp]
        exact ih (by simpa using h.2)

theorem string_append_cancel_left (s a b : String) (h : s ++ a = s ++ b) : a = b := by
  have hd : s.data ++ a.data = s.data ++ b.data := by
    have := congrArg String.data h
    simpa [String.data_append] using this
  have := List.append_cancel_left hd
  cases a; cases b; simp_all

theorem splitCharAux_ne_nil (c : Char) (l cur : List Char) : splitCharAux c l cur ≠ [] := by
  induction l generalizing cur with
  | nil => simp [splitCharAux]
  | cons x xs ih =>
      by_cases hx : x == c
      · simp [splitCharAux, hx]
      · simpa [splitCharAux, hx] using ih (x :: cur)

theorem splitChar_ne_nil (s : String) (c : Char) : splitChar s c ≠ [] :=
  splitCharAux_ne_nil c s.data []

@[simp] theorem createBasicTranslation_id (m t : String) (i : Docset) :
    (createBasicTranslation m t i).id = m := by
  unfold createBasicTranslation
  rcases i.inheritdoc with _ | s <;> rcases i.author with _ | a <;>
    first
      | rfl
      | (dsimp only; split <;> rfl)

@[simp] theorem createBasicTranslation_type (m t : String) (i : Docset) :
    (createBasicTranslation m t i).type = t := by
  unfold createBasicTranslation
  rcases i.inheritdoc with _ | s <;> rcases i.author with _ | a <;>
    first
      | rfl
      | (dsimp only; split <;> rfl)

@[simp] theorem createBasicTranslation_bound (m t : String) (i : Docset) :
    (createBasicTranslation m t i).bound = none := by
  unfold createBasicTranslation
  rcases i.inheritdoc with _ | s <;> rcases i.author with _ | a <;>
    first
      | rfl
      | (dsimp only; split <;> rfl)

@[simp] theorem createBasicTranslation_section (m t : String) (i : Docset) :
    (createBasicTranslation m t i).«section» = none := by
  unfold createBasicTranslation
  rcases i.inheritdoc with _ | s <;> rcases i.author with _ | a <;>
    first
      | rfl
      | (dsimp only; split <;> rfl)

@[simp] theorem classNodeOf_id (i : Docset) : (classNodeOf i).id = i.name := by
  unfold classNodeOf
  rcases i.inherits with _ | l <;> rcases i.allowchild with _ | a <;>
    rcases i.define with _ | d <;> dsimp only <;> (repeat' split) <;> simp

@[simp] theorem classNodeOf_type (i : Docset) : (classNodeOf i).type = "class" := by
  unfold classNodeOf
  rcases i.inherits with _ | l <;> rcases i.allowchild with _ | a <;>
    rcases i.define with _ | d <;> dsimp only <;> (repeat' split) <;> simp

@[simp] theorem classNodeOf_bound (i : Docset) : (classNodeOf i).bound = none := by
  unfold classNodeOf
  rcases i.inherits with _ | l <;> rcases i.allowchild with _ | a <;>
    rcases i.define with _ | d <;> dsimp only <;> (repeat' split) <;> simp

@[simp] theorem classNodeOf_section (i : Docset) : (classNodeOf i).«section» = none := by
  unfold classNodeOf
  rcases i.inherits with _ | l <;> rcases i.allowchild with _ | a <;>
    rcases i.define with _ | d <;> dsimp only <;> (repeat' split) <;> simp

@[simp] theorem prepNode_id (f : String) (n : Node) : (prepNode f n).id = n.id := by
  unfold prepNode; dsimp only; split <;> rfl

@[simp] theorem prepNode_type (f : String) (n : Node) : (prepNode f n).type = n.type := by
  unfold prepNode; dsimp only; split <;> rfl

@[simp] theorem prepNode_bound (f : String) (n : Node) : (prepNode f n).bound = n.bound := by
  unfold prepNode; dsimp only; split <;> rfl

@[simp] theorem prepNode_section (f : String) (n : Node) :
    (prepNode f n).«section» = n.«section» := by
  unfold prepNode; dsimp only; split <;> rfl

@[simp] theorem plainNodeOf_signatures (m k : String) (i : Docset) :
    (plainNodeOf m k i).signatures =
      some [{ arguments := none, ret := none, returns := some [{ type := i.type }] }] := rfl

@[simp] theorem plainNodeOf_id (m k : String) (i : Docset) : (plainNodeOf m k i).id = m := by
  unfold plainNodeOf
  simp

@[simp] theorem plainNodeOf_type (m k : String) (i : Docset) :
    (plainNodeOf m k i).type = k := by
  unfold plainNodeOf
  simp

@[simp] theorem methodNodeOf_args (m : String) (i : Docset) :
    (methodNodeOf m i).1.arguments =
      i.params.map (fun ps => ps.map (fun p => (buildArg m p).1)) := by
  unfold methodNodeOf
  rcases i.params with _ | ps <;> dsimp only <;> split <;> simp

@[simp] theorem methodNodeOf_sig (m : String) (i : Docset) :
    (methodNodeOf m i).1.signatures =
      some [{ arguments := (methodNodeOf m i).1.arguments, ret := some (retOf i.ret),
              returns := none }] := by
  unfold methodNodeOf
  rcases i.params with _ | ps <;> dsimp only <;> split <;> simp

@[simp] theorem methodNodeOf_id (m : String) (i : Docset) : (methodNodeOf m i).1.id = m := by
  unfold methodNodeOf
  rcases i.params with _ | ps <;> dsimp only <;> split <;> simp

@[simp] theorem methodNodeOf_type (m : String) (i : Docset) :
    (methodNodeOf m i).1.type = (if i.tagname == "event" then "event" else "method") := by
  unfold methodNodeOf
  rcases i.params with _ | ps <;> dsimp only <;> split <;> rename_i h <;> simp_all

@[simp] theorem methodNodeOf_bound (m : String) (i : Docset) :
    (methodNodeOf m i).1.bound = none := by
  unfold methodNodeOf
  rcases i.params with _ | ps <;> dsimp only <;> split <;> simp

@[simp] theorem methodNodeOf_section (m : String) (i : Docset) :
    (methodNodeOf m i).1.«section» = none := by
  unfold methodNodeOf
  rcases i.params with _ | ps <;> dsimp only <;> split <;> simp

/-! Claim theorems. -/

/-- C6 (counterexample): a comma-separated parameter type string does not
become a single compound type entry — the code only warns and pushes
nothing, so the argument's `types` list is empty, not of length at least
one. -/
theorem C6_counterexample :
    buildArg "Foo.m" { name := "a", doc := "d", type := "string,number" } =
      ({ name := "a", description := "d", types := [], optional := none },
       [Warning.commaTypes "Foo.m"]) ∧
    (buildArg "Foo.m" { name := "a", doc := "d", type := "string,number" }).1.types ≠
      ["string,number"] := by
  constructor
  · rfl
  · decide

/-- C6 (amended): a pipe-separated type string is split into one trimmed
entry per `|`-segment (a nonempty list); a comma-separated type string
yields an EMPTY types list together with the comma warning; any other type
string becomes the single verbatim entry.  The argument record carries
exactly these types, and the warning is emitted exactly in the comma
case. -/
theorem C6_amended (ty : String) :
    (indexOfChar ty '|' ≥ 0 →
      argTypes ty = ((splitChar ty '|').map trim, false) ∧ (argTypes ty).1 ≠ []) ∧
    (indexOfChar ty '|' < 0 → indexOfChar ty ',' ≥ 0 → argTypes ty = ([], true)) ∧
    (indexOfChar ty '|' < 0 → indexOfChar ty ',' < 0 → argTypes ty = ([ty], false)) ∧
    (∀ mn p, (buildArg mn p).1.types = (argTypes p.type).1 ∧
      (buildArg mn p).2 = (if (argTypes p.type).2 then [Warning.commaTypes mn] else [])) := by
  refine ⟨fun h1 => ?_, fun h1 h2 => ?_, fun h1 h2 => ?_, fun mn p => ⟨rfl, rfl⟩⟩
  · have he : argTypes ty = ((splitChar ty '|').map trim, false) := by
      unfold argTypes
      simp [h1]
    refine ⟨he, ?_⟩
    rw [he]
    intro hnil
    exact splitChar_ne_nil ty '|' (by simpa using congrArg (List.map (fun s => s)) hnil)
  · unfold argTypes
    rw [if_neg (by omega), if_pos (by omega)]
  · unfold argTypes
    rw [if_neg (by omega), if_neg (by omega)]

/-- C6 (witness): the pipe case at the spec's own example. -/
theorem C6_witness : (argTypes "string|number").1 = ["string", "number"] := by
  have h := ((C6_amended "string|number").1 (by decide)).1
  rw [h]
  decide

/-- C7 (counterexample): a return type string prefixed with `[` but NOT
suffixed with `]` is not kept verbatim — the code checks only the leading
`[` and unconditionally drops the first and last characters, so `"[string"`
becomes `"strin"` with `isArray` set. -/
theorem C7_counterexample :
    buildRet { type := "[string", description := "d" } =
      { type := some "strin", isArray := some true, description := some "d" } ∧
    (buildRet { type := "[string", description := "d" }).type ≠ some "[string" := by
  constructor
  · rfl
  · decide

/-- C7 (amended): a return type string whose `indexOf("[")` is `0` (a check
of the leading character only — the trailing `]` is never inspected) yields
a record with the first and last characters stripped and `isArray = true`;
a type string not starting with `[` is kept verbatim with no `isArray`
flag.  In particular `"[string]"` yields type `"string"` with `isArray`. -/
theorem C7_amended (r : RetSpec) :
    (indexOfChar r.type '[' = 0 →
      buildRet r = { type := some (stripEnds r.type), isArray := some true,
                     description := some r.description }) ∧
    (indexOfChar r.type '[' ≠ 0 →
      buildRet r = { type := some r.type, isArray := none,
                     description := some r.description }) := by
  constructor
  · intro h
    unfold buildRet
    simp [h]
  · intro h
    unfold buildRet
    rw [if_neg (by simpa using h)]

/-- C7 (witness): the bracketed spelling at the spec's own example. -/
theorem C7_witness :
    buildRet { type := "[string]", description := "d" } =
      { type := some "string", isArray := some true, description := some "d" } := by
  have h := (C7_amended { type := "[string]", description := "d" }).1 (by decide)
  rw [h]
  decide

/-- C1 (counterexample): with `options.globalNS` undefined, the class/method
pair does NOT produce a `Foo.bar` node — the `else if` at line 118 blanks
the join character even though the class prefix `Foo` exists, so the method
is stored as `Foobar`. -/
theorem C1_counterexample :
    isOkE (process_jsd [fooClass, barMethod] { globalNS := none } "f.js") = true ∧
    lookupKey (okList (process_jsd [fooClass, barMethod] { globalNS := none } "f.js"))
      ".Foo.bar" = none ∧
    (lookupKey (okList (process_jsd [fooClass, barMethod] { globalNS := none } "f.js"))
      ".Foobar").map Node.id = some "Foobar" ∧
    (lookupKey (okList (process_jsd [fooClass, barMethod] { globalNS := none } "f.js"))
      ".Foobar").map Node.type = some "method" := by
  refine ⟨by decide, by decide, by decide, by decide⟩

/-- C1 (amended): provided `options.globalNS` is defined, a merged docset
list consisting of one class-tagged docset named `Foo` (with a defined doc)
and one method-tagged docset named `bar` (with a defined doc that is not an
`@todo` marker) yields a result map containing a node with id `Foo` and
type `class` and a node with id `Foo.bar` and type `method`, each stored
under the key formed by prepending the empty section plus `.` to the node
id. -/
theorem C1_amended (c m : Docset) (g f dm : String)
    (hc1 : c.tagname = "class") (hc2 : c.doc.isSome = true) (hc3 : c.name = "Foo")
    (hm1 : m.tagname = "method") (hm2 : m.name = "bar")
    (hm3 : m.doc = some dm) (hm4 : todoTest dm = false) :
    isOkE (process_jsd [c, m] { globalNS := some g } f) = true ∧
    (lookupKey (okList (process_jsd [c, m] { globalNS := some g } f)) ".Foo").map Node.id =
      some "Foo" ∧
    (lookupKey (okList (process_jsd [c, m] { globalNS := some g } f)) ".Foo").map Node.type =
      some "class" ∧
    (lookupKey (okList (process_jsd [c, m] { globalNS := some g } f)) ".Foo.bar").map Node.id =
      some "Foo.bar" ∧
    (lookupKey (okList (process_jsd [c, m] { globalNS := some g } f)) ".Foo.bar").map
      Node.type = some "method" := by
  have hcc : isClassDoc c = true := by simp [isClassDoc, hc1, hc2]
  have hcm : isClassDoc m = false := by simp [isClassDoc, hm1]
  have hclass : classPass [c, m] = (some "Foo", [("Foo", classNodeOf c)], [m]) := by
    unfold classPass
    rw [List.foldl_cons, List.foldl_cons, List.foldl_nil]
    have s1 : classStep (none, [], []) c =
        (some "Foo", [("Foo", classNodeOf c)], []) := by
      simp [classStep, hcc, hc3, store]
    have s2 : classStep (some "Foo", [("Foo", classNodeOf c)], []) m =
        (some "Foo", [("Foo", classNodeOf c)], [m]) := by
      simp [classStep, hcm]
    rw [s1, s2]
  have hfil : [m].filter keepDocset = [m] := by
    simp [keepDocset, hm3, hm4]
  have hmn : memberNameOf { globalNS := some g } (some "Foo") m = ("Foo.bar", some "Foo") := by
    unfold memberNameOf
    simp [truthyS, hm1, hm2]
  have hstep : nameStep { globalNS := some g } f
      { cp := some "Foo", nodes := [("Foo", classNodeOf c)], ws := [] } m =
      Except.ok
        { cp := some "Foo",
          nodes := [("Foo", classNodeOf c), ("Foo.bar", (methodNodeOf "Foo.bar" m).1)],
          ws := [] ++ (methodNodeOf "Foo.bar" m).2 } := by
    unfold nameStep
    dsimp only
    rw [hmn]
    dsimp only
    rw [if_neg (by simp [show fatalName "Foo.bar" = false from by decide])]
    rw [if_pos (by simp [hm1])]
    simp [store]
  have hnp : namePass { globalNS := some g } f (some "Foo") [("Foo", classNodeOf c)] [m] =
      Except.ok
        { cp := some "Foo",
          nodes := [("Foo", classNodeOf c), ("Foo.bar", (methodNodeOf "Foo.bar" m).1)],
          ws := [] ++ (methodNodeOf "Foo.bar" m).2 } := by
    unfold namePass
    rw [List.foldlM_cons, hstep]
    simp
  have hproc : process_jsd [c, m] { globalNS := some g } f =
      Except.ok
        (postPass f [("Foo", classNodeOf c), ("Foo.bar", (methodNodeOf "Foo.bar" m).1)],
         [] ++ (methodNodeOf "Foo.bar" m).2) := by
    unfold process_jsd
    rw [hclass]
    dsimp only
    rw [hfil, hnp]
  have p1 : postStep f [] (classNodeOf c) = [(".Foo", prepNode f (classNodeOf c))] := by
    unfold postStep
    simp only [prepNode_type, classNodeOf_type, prepNode_section, classNodeOf_section,
      prepNode_bound, classNodeOf_bound, prepNode_id, classNodeOf_id, hc3]
    rw [if_neg (by decide), if_neg (by decide)]
    simp [store]
  have p2 : postStep f [(".Foo", prepNode f (classNodeOf c))]
      (methodNodeOf "Foo.bar" m).1 =
      [(".Foo", prepNode f (classNodeOf c)),
       (".Foo.bar", prepNode f (methodNodeOf "Foo.bar" m).1)] := by
    unfold postStep
    simp only [prepNode_type, methodNodeOf_type, prepNode_section, methodNodeOf_section,
      prepNode_bound, methodNodeOf_bound, prepNode_id, methodNodeOf_id, hm1]
    rw [if_neg (by decide), if_neg (by decide)]
    simp [store]
  have hpost : postPass f [("Foo", classNodeOf c), ("Foo.bar", (methodNodeOf "Foo.bar" m).1)] =
      [(".Foo", prepNode f (classNodeOf c)),
       (".Foo.bar", prepNode f (methodNodeOf "Foo.bar" m).1)] := by
    unfold postPass
    rw [List.foldl_cons, List.foldl_cons, List.foldl_nil]
    dsimp only
    rw [p1, p2]
  rw [hproc, hpost]
  refine ⟨rfl, ?_, ?_, ?_, ?_⟩ <;>
    simp [okList, lookupKey, List.find?, hc3, hm1]

/-- C1 (witness): the amended statement at concrete docsets with
`globalNS` defined. -/
theorem C1_witness :
    isOkE (process_jsd [fooClass, barMethod] { globalNS := some "G" } "f.js") = true ∧
    (lookupKey (okList (process_jsd [fooClass, barMethod] { globalNS := some "G" } "f.js"))
      ".Foo").map Node.id = some "Foo" ∧
    (lookupKey (okList (process_jsd [fooClass, barMethod] { globalNS := some "G" } "f.js"))
      ".Foo").map Node.type = some "class" ∧
    (lookupKey (okList (process_jsd [fooClass, barMethod] { globalNS := some "G" } "f.js"))
      ".Foo.bar").map Node.id = some "Foo.bar" ∧
    (lookupKey (okList (process_jsd [fooClass, barMethod] { globalNS := some "G" } "f.js"))
      ".Foo.bar").map Node.type = some "method" :=
  C1_amended fooClass barMethod "G" "f.js" "A method."
    rfl rfl rfl rfl rfl rfl (by decide)

/-- C2 (counterexample): an event docset whose computed name ends exactly at
the event join character `@` (empty local segment, no inheritdoc) does NOT
trigger the fatal naming path — the check at line 123 looks only for a
trailing `.`, so processing continues. -/
theorem C2_counterexample :
    (memberNameOf { globalNS := some "G" } (some "Foo") emptyEvent).1 = "Foo@" ∧
    emptyEvent.inheritdoc = none ∧
    isOkE (nameStep { globalNS := some "G" } "f.js" { cp := some "Foo" } emptyEvent) = true := by
  refine ⟨by decide, rfl, by decide⟩

/-- C2 (amended): the fatal check tests whether the last `.` of the computed
name is its final character — a trailing `.` whatever the join character was
(so for non-events an empty local segment is caught, while an event name
ending at its `@` join character is not).  When that test holds and the
docset has no `inheritdoc`, the step reports the offending docset as a
fatal error; when the docset carries `inheritdoc`, the fatal path is never
taken and the step succeeds. -/
theorem C2_amended (options : Options) (file : String) (st : NState) (i : Docset) :
    (fatalName (memberNameOf options st.cp i).1 = true → i.inheritdoc = none →
      nameStep options file st i = Except.error i) ∧
    (∀ s, i.inheritdoc = some s → ∃ st2, nameStep options file st i = Except.ok st2) := by
  constructor
  · intro hf hi
    unfold nameStep
    simp [hf, hi]
  · intro s hi
    unfold nameStep
    have hnone : i.inheritdoc.isNone = false := by simp [hi]
    simp only [hnone, Bool.and_false, Bool.false_eq_true, if_false]
    repeat' split
    all_goals exact ⟨_, rfl⟩

/-- C2 (witness): a method with an empty local name is fatal; the same
docset with `inheritdoc` is not. -/
theorem C2_witness :
    nameStep { globalNS := some "G" } "f.js" { cp := some "Foo" } emptyMethod =
      Except.error emptyMethod ∧
    (∃ st2, nameStep { globalNS := some "G" } "f.js" { cp := some "Foo" } emptyInherit =
      Except.ok st2) :=
  ⟨(C2_amended { globalNS := some "G" } "f.js" { cp := some "Foo" } emptyMethod).1
      (by decide) rfl,
   (C2_amended { globalNS := some "G" } "f.js" { cp := some "Foo" } emptyInherit).2
      "Other#m" rfl⟩

/-- C5 (counterexample): with `options.globalNS` undefined, an event docset
named `change` under owning class `Foo` is stored as `Foochange`, not
`Foo@change` — the `else if` at line 118 blanks the join character whenever
`globalNS` is undefined, even though a class prefix exists. -/
theorem C5_counterexample :
    isOkE (process_jsd [fooClass, changeEvent] { globalNS := none } "f.js") = true ∧
    lookupKey (okList (process_jsd [fooClass, changeEvent] { globalNS := none } "f.js"))
      ".Foo@change" = none ∧
    (lookupKey (okList (process_jsd [fooClass, changeEvent] { globalNS := none } "f.js"))
      ".Foochange").map Node.id = some "Foochange" ∧
    (lookupKey (okList (process_jsd [fooClass, changeEvent] { globalNS := none } "f.js"))
      ".Foochange").map Node.type = some "event" := by
  refine ⟨by decide, by decide, by decide, by decide⟩

/-- C5 (amended): when `options.globalNS` is undefined the join character is
the empty string, whatever the tag and even when a class prefix exists (the
name is prefix-concatenated-with-name); when `globalNS` is defined, the join
character is `@` for events and `.` otherwise, the class prefix is used when
present, a truthy `globalNS` substitutes for a missing class prefix, and a
defined-but-empty `globalNS` leaves the prefix empty. -/
theorem C5_amended (options : Options) (cp : Option String) (i : Docset) :
    (options.globalNS = none →
      (memberNameOf options cp i).1 = (cp.getD "") ++ i.name) ∧
    (∀ g p, options.globalNS = some g → cp = some p →
      (memberNameOf options cp i).1 =
        p ++ (if i.tagname == "event" then "@" else ".") ++ i.name) ∧
    (∀ g, options.globalNS = some g → (g == "") = false → cp = none →
      (memberNameOf options cp i).1 =
        g ++ (if i.tagname == "event" then "@" else ".") ++ i.name) ∧
    (options.globalNS = some "" → cp = none →
      (memberNameOf options cp i).1 = (if i.tagname == "event" then "@" else ".") ++ i.name) := by
  refine ⟨fun h => ?_, fun g p hg hp => ?_, fun g hg htr hp => ?_, fun hg hp => ?_⟩
  · unfold memberNameOf
    rw [h]
    simp [truthyS]
  · unfold memberNameOf
    rw [hg, hp]
    simp [truthyS]
  · unfold memberNameOf
    rw [hg, hp]
    simp [truthyS, htr]
  · unfold memberNameOf
    rw [hg, hp]
    simp [truthyS]

/-- C5 (witness): the first case at the counterexample's input, and the
class-prefixed event case with `globalNS` defined. -/
theorem C5_witness :
    (memberNameOf { globalNS := none } (some "Foo") changeEvent).1 = "Foochange" ∧
    (memberNameOf { globalNS := some "G" } (some "Foo") changeEvent).1 = "Foo@change" := by
  constructor
  · have h := (C5_amended { globalNS := none } (some "Foo") changeEvent).1 rfl
    simpa [changeEvent] using h
  · have h := (C5_amended { globalNS := some "G" } (some "Foo") changeEvent).2.1 "G" "Foo"
      rfl rfl
    simpa [changeEvent] using h

/-- C9 (counterexample): the synthetic signature of a property node does not
conform to the claimed Signature shape — the docset's type is stored under a
one-element `returns` array and the `return` record is absent
(`undefined`). -/
theorem C9_counterexample :
    ((lookupKey (okNState (nameStep { globalNS := some "G" } "f.js" { cp := some "Foo" }
        propDs)).nodes "Foo.p").map Node.signatures) =
      some (some [{ arguments := none, ret := none,
                    returns := some [{ type := some "string" }] }]) ∧
    ((lookupKey (okNState (nameStep { globalNS := some "G" } "f.js" { cp := some "Foo" }
        propDs)).nodes "Foo.p").map
          (fun n => n.signatures.map (List.map Signature.ret))) =
      some (some [none]) := by
  refine ⟨by decide, by decide⟩

/-- C9 (amended): every property-, attribute-, or binding-tagged docset that
passes the fatal-name check produces a node with exactly one synthetic
signature, whose `arguments` is undefined and which carries the docset's
`type` field as the single element of a `returns` array; the signature has
no `return` record (so no isArray/description either). -/
theorem C9_amended (options : Options) (file : String) (st : NState) (i : Docset)
    (h1 : i.tagname = "property" ∨ i.tagname = "attribute" ∨ i.tagname = "binding")
    (h2 : (fatalName (memberNameOf options st.cp i).1 && i.inheritdoc.isNone) = false) :
    ∃ st2, nameStep options file st i = Except.ok st2 ∧
      (lookupKey st2.nodes (memberNameOf options st.cp i).1).map Node.signatures =
        some (some [{ arguments := none, ret := none,
                      returns := some [{ type := i.type }] }]) := by
  unfold nameStep
  rw [if_neg (by simp [h2])]
  rcases h1 with h | h | h <;> rw [h]
  · exact ⟨_, by rw [if_neg (by decide), if_pos (by decide)], by simp [lookupKey_store_self]⟩
  · exact ⟨_, by rw [if_neg (by decide), if_neg (by decide), if_pos (by decide)],
      by simp [lookupKey_store_self]⟩
  · exact ⟨_, by rw [if_neg (by decide), if_neg (by decide), if_neg (by decide),
      if_pos (by decide)], by simp [lookupKey_store_self]⟩

/-- C9 (witness): the amended statement at a concrete property docset. -/
theorem C9_witness :
    ∃ st2, nameStep { globalNS := some "G" } "f.js" { cp := some "Foo" } propDs =
        Except.ok st2 ∧
      (lookupKey st2.nodes
          (memberNameOf { globalNS := some "G" } (some "Foo") propDs).1).map Node.signatures =
        some (some [{ arguments := none, ret := none,
                      returns := some [{ type := some "string" }] }]) :=
  C9_amended { globalNS := some "G" } "f.js" { cp := some "Foo" } propDs
    (Or.inl rfl) (by decide)

/-- C10 (confirmed): every method- or event-tagged docset that passes the
fatal-name check produces a node whose single signature's `arguments` field
is the node's own top-level `arguments` field; when the docset has params
the top-level field holds the built argument records in order, and when it
has none the field is undefined (and hence so are the signature's
arguments). -/
theorem C10_arguments (options : Options) (file : String) (st : NState) (i : Docset)
    (h1 : i.tagname = "method" ∨ i.tagname = "event")
    (h2 : (fatalName (memberNameOf options st.cp i).1 && i.inheritdoc.isNone) = false) :
    ∃ st2 n, nameStep options file st i = Except.ok st2 ∧
      lookupKey st2.nodes (memberNameOf options st.cp i).1 = some n ∧
      n.signatures = some [{ arguments := n.arguments, ret := some (retOf i.ret),
                             returns := none }] ∧
      (i.params = none → n.arguments = none) ∧
      (∀ ps, i.params = some ps →
        n.arguments = some (ps.map (fun p =>
          (buildArg (memberNameOf options st.cp i).1 p).1))) := by
  unfold nameStep
  rw [if_neg (by simp [h2])]
  have hcond : (i.tagname == "method" || i.tagname == "event") = true := by
    rcases h1 with h | h <;> simp [h]
  rw [if_pos hcond]
  refine ⟨_, (methodNodeOf (memberNameOf options st.cp i).1 i).1, rfl,
    by simp [lookupKey_store_self], ?_, ?_, ?_⟩
  · rw [methodNodeOf_sig]
  · intro hp
    rw [methodNodeOf_args, hp]
    rfl
  · intro ps hp
    rw [methodNodeOf_args, hp]
    rfl

/-- C10 (witness): the statement at a method docset with one parameter and
at one without parameters. -/
theorem C10_witness :
    (∃ st2 n, nameStep { globalNS := some "G" } "f.js" { cp := some "Foo" } methodWithParam =
        Except.ok st2 ∧
      lookupKey st2.nodes
        (memberNameOf { globalNS := some "G" } (some "Foo") methodWithParam).1 = some n ∧
      n.signatures = some [{ arguments := n.arguments,
                             ret := some (retOf methodWithParam.ret), returns := none }] ∧
      (methodWithParam.params = none → n.arguments = none) ∧
      (∀ ps, methodWithParam.params = some ps →
        n.arguments = some (ps.map (fun p =>
          (buildArg (memberNameOf { globalNS := some "G" } (some "Foo") methodWithParam).1
            p).1)))) ∧
    (∃ st2 n, nameStep { globalNS := some "G" } "f.js" { cp := some "Foo" } methodNoParam =
        Except.ok st2 ∧
      lookupKey st2.nodes
        (memberNameOf { globalNS := some "G" } (some "Foo") methodNoParam).1 = some n ∧
      n.signatures = some [{ arguments := n.arguments,
                             ret := some (retOf methodNoParam.ret), returns := none }] ∧
      (methodNoParam.params = none → n.arguments = none) ∧
      (∀ ps, methodNoParam.params = some ps →
        n.arguments = some (ps.map (fun p =>
          (buildArg (memberNameOf { globalNS := some "G" } (some "Foo") methodNoParam).1
            p).1)))) :=
  ⟨C10_arguments { globalNS := some "G" } "f.js" { cp := some "Foo" } methodWithParam
      (Or.inl rfl) (by decide),
   C10_arguments { globalNS := some "G" } "f.js" { cp := some "Foo" } methodNoParam
      (Or.inl rfl) (by decide)⟩

theorem getLast?_elim_shift (a : String) (L : List String) (cp0 : Option String) :
    ((a :: L).getLast?).elim cp0 some = (L.getLast?).elim (some a) some := by
  cases L with
  | nil => simp
  | cons b bs =>
      rw [List.getLast?_cons_cons]
      cases h : (b :: bs).getLast? with
      | none => exact absurd (List.getLast?_eq_none_iff.mp h) (by simp)
      | some y => simp

theorem classPass_general (l : List Docset) (cp0 : Option String)
    (nodes0 : List (String × Node)) (rem0 : List Docset) :
    l.foldl classStep (cp0, nodes0, rem0) =
      (((l.filter isClassDoc).map Docset.name).getLast?.elim cp0 some,
       (l.filter isClassDoc).foldl (fun a i => store a i.name (classNodeOf i)) nodes0,
       rem0 ++ l.filter (fun i => !(isClassDoc i))) := by
  induction l generalizing cp0 nodes0 rem0 with
  | nil => simp
  | cons x xs ih =>
      by_cases hx : isClassDoc x
      · rw [List.foldl_cons]
        have hstep : classStep (cp0, nodes0, rem0) x =
            (some x.name, store nodes0 x.name (classNodeOf x), rem0) := by
          simp [classStep, hx]
        have hfil : (x :: xs).filter isClassDoc = x :: xs.filter isClassDoc := by
          simp [List.filter_cons, hx]
        have hfil2 : (x :: xs).filter (fun i => !(isClassDoc i)) =
            xs.filter (fun i => !(isClassDoc i)) := by
          simp [List.filter_cons, hx]
        rw [hstep, ih, hfil, hfil2, List.map_cons, List.foldl_cons]
        congr 1
        exact (getLast?_elim_shift x.name _ cp0).symm
      · rw [List.foldl_cons]
        have hstep : classStep (cp0, nodes0, rem0) x = (cp0, nodes0, rem0 ++ [x]) := by
          simp [classStep, hx]
        have hfil : (x :: xs).filter isClassDoc = xs.filter isClassDoc := by
          simp [List.filter_cons, hx]
        have hfil2 : (x :: xs).filter (fun i => !(isClassDoc i)) =
            x :: xs.filter (fun i => !(isClassDoc i)) := by
          simp [List.filter_cons, hx]
        rw [hstep, ih, hfil, hfil2]
        congr 1
        simp

/-- C4 (counterexample): with two class-tagged docsets (both with docs) the
class prefix is the LAST one's name, not the first's — the `_.reject`
callback reassigns `classPrefix` for every class docset it sees, and both
docsets are removed and become class nodes. -/
theorem C4_counterexample :
    (classPass [classA, classB]).1 = some "B" ∧
    (classPass [classA, classB]).1 ≠ some "A" ∧
    (lookupKey (classPass [classA, classB]).2.1 "A").isSome = true ∧
    (lookupKey (classPass [classA, classB]).2.1 "B").isSome = true ∧
    (classPass [classA, classB]).2.2 = [] := by
  refine ⟨by decide, by decide, by decide, by decide, by decide⟩

/-- C4 (amended): every docset with tagname `class` and a DEFINED doc (an
empty string also qualifies) is removed from the working list and becomes a
class node under its own name, with `inherits` / `allowchild` / `define`
copied when present (see `classNodeOf`); the class prefix is reassigned by
each such docset in turn, so the LAST one's name wins. -/
theorem C4_amended (merged : List Docset) :
    (classPass merged).1 = ((merged.filter isClassDoc).map Docset.name).getLast? ∧
    (classPass merged).2.1 =
      (merged.filter isClassDoc).foldl (fun a i => store a i.name (classNodeOf i)) [] ∧
    (classPass merged).2.2 = merged.filter (fun i => !(isClassDoc i)) := by
  unfold classPass
  rw [classPass_general]
  refine ⟨?_, rfl, by simp⟩
  cases h : ((merged.filter isClassDoc).map Docset.name).getLast? <;> simp

theorem foldl_lastP (P : Nat → Bool) (l : List Nat) (init : Option Nat)
    (h : ∀ j, init = some j → P j = true) (k : Nat)
    (hk : l.foldl (fun acc n => if P n then some n else acc) init = some k) :
    P k = true := by
  induction l generalizing init with
  | nil => exact h k hk
  | cons x xs ih =>
      refine ih (if P x then some x else init) (fun j hj => ?_) hk
      by_cases hx : P x = true
      · rw [if_pos hx] at hj
        have := Option.some.inj hj
        rw [← this]
        exact hx
      · rw [if_neg hx] at hj
        exact h j hj

theorem lastMidDot_sep (cs : List Char) (k : Nat) (h : lastMidDot cs = some k) :
    sepDotAt cs k = true := by
  unfold lastMidDot at h
  exact foldl_lastP (sepDotAt cs) (List.range cs.length) none (by simp) k h

theorem sepDotAt_facts (cs : List Char) (k : Nat) (h : sepDotAt cs k = true) :
    1 ≤ k ∧ k + 1 < cs.length ∧ cs.getD k ' ' = '.' := by
  unfold sepDotAt at h
  simp only [Bool.and_eq_true, decide_eq_true_eq, beq_iff_eq] at h
  exact ⟨h.1.1.1.1, h.1.1.1.2, h.1.1.2⟩

/-- C3 (counterexample): a method node with a truthy bound flag whose id has
no `.` separator does not produce two nodes — the clone's id rewrite leaves
the id unchanged, the clone overwrites the original at the same key, and the
single surviving node's bound link points at its own id. -/
theorem C3_counterexample :
    (postPass "f.js" [("bar", boundDotless)]).length = 1 ∧
    (lookupKey (postPass "f.js" [("bar", boundDotless)]) ".bar").map Node.id =
      some "bar" ∧
    (lookupKey (postPass "f.js" [("bar", boundDotless)]) ".bar").map Node.bound =
      some (some (BVal.str "bar")) := by
  refine ⟨by decide, by decide, by decide⟩

/-- C3 (amended): for every method node with a truthy bound flag whose id
the rewrite regex `(.+)\.(.+)$` matches (there is a dot with at least one
character before it and at least one after it on the id's final line), the
post-processing pass stores exactly two cross-linked nodes under distinct
section-prefixed keys: the original, whose bound field becomes the clone's
id, and a clone whose id replaces that final `.` separator by `#` and whose
bound field is the original's id.  (When the regex does not match, the
rewrite returns the id unchanged and the clone overwrites the original —
see the counterexample.) -/
theorem C3_amended (file : String) (list : List (String × Node)) (node : Node) (k : Nat)
    (h1 : node.type = "method") (h2 : truthyB node.bound = true)
    (h3 : lastMidDot node.id.data = some k) :
    ∃ n2 c2 : Node,
      postStep file list node =
        store (store list ((node.«section».getD "") ++ "." ++ node.id) n2)
          ((node.«section».getD "") ++ "." ++ c2.id) c2 ∧
      n2.id = node.id ∧
      c2.id = String.mk (node.id.data.set k '#') ∧
      node.id.data.getD k ' ' = '.' ∧
      n2.bound = some (BVal.str c2.id) ∧
      c2.bound = some (BVal.str n2.id) ∧
      c2.id ≠ n2.id ∧
      ((node.«section».getD "") ++ "." ++ c2.id) ≠
        ((node.«section».getD "") ++ "." ++ n2.id) := by
  have hsep := lastMidDot_sep node.id.data k h3
  obtain ⟨hk1, hk2, hkd⟩ := sepDotAt_facts node.id.data k hsep
  have hklt : k < node.id.data.length := by omega
  have hbr : boundRewrite node.id = String.mk (node.id.data.set k '#') := by
    unfold boundRewrite
    rw [h3]
  have hne : String.mk (node.id.data.set k '#') ≠ node.id := by
    intro heq
    have hdata : node.id.data.set k '#' = node.id.data := congrArg String.data heq
    have hq : (node.id.data.set k '#')[k]? = node.id.data[k]? :=
      congrArg (fun l => l[k]?) hdata
    have hset : (node.id.data.set k '#')[k]? = some '#' :=
      List.getElem?_set_self hklt
    have hgetk : node.id.data[k] = '.' := by
      rw [← List.getD_eq_getElem node.id.data ' ' hklt]
      exact hkd
    have horig : node.id.data[k]? = some '.' := by
      rw [List.getElem?_eq_getElem hklt, hgetk]
    rw [hq, horig] at hset
    exact absurd (Option.some.inj hset) (by decide)
  refine ⟨{ prepNode file node with
              bound := some (BVal.str (String.mk (node.id.data.set k '#'))) },
          { prepNode file node with
              id := String.mk (node.id.data.set k '#'),
              bound := some (BVal.str node.id) }, ?_, by simp, rfl, ?_, rfl, ?_, ?_, ?_⟩
  · unfold postStep
    simp only [prepNode_type, prepNode_bound, prepNode_section, prepNode_id, h1, h2]
    rw [if_neg (by decide), if_pos (by decide), hbr]
  · exact hkd
  · simp
  · simpa using hne
  · intro heq
    have := string_append_cancel_left ((node.«section».getD "") ++ ".") _ _ (by
      simpa [String.append_assoc] using heq)
    exact absurd (by simpa using this) hne

/-- C3 (witness): the amended statement at a concrete bound method node with
a dotted id. -/
theorem C3_witness :
    ∃ n2 c2 : Node,
      postStep "f.js" [] boundDotted =
        store (store [] ((boundDotted.«section».getD "") ++ "." ++ boundDotted.id) n2)
          ((boundDotted.«section».getD "") ++ "." ++ c2.id) c2 ∧
      n2.id = boundDotted.id ∧
      c2.id = String.mk (boundDotted.id.data.set 7 '#') ∧
      boundDotted.id.data.getD 7 ' ' = '.' ∧
      n2.bound = some (BVal.str c2.id) ∧
      c2.bound = some (BVal.str n2.id) ∧
      c2.id ≠ n2.id ∧
      ((boundDotted.«section».getD "") ++ "." ++ c2.id) ≠
        ((boundDotted.«section».getD "") ++ "." ++ n2.id) :=
  C3_amended "f.js" [] boundDotted 7 rfl (by decide) (by decide)

/-- C8 (confirmed): the pre-resolution filter keeps a docset exactly when it
has a defined doc not starting with `@todo` (case-insensitively) or carries
`inheritdoc`; membership in the filtered list is membership plus that
predicate (so every other docset is dropped entirely); and the filter is
idempotent. -/
theorem C8_filter :
    (∀ i : Docset, keepDocset i = true ↔
      ((∃ d, i.doc = some d ∧ todoTest d = false) ∨ i.inheritdoc ≠ none)) ∧
    (∀ l : List Docset, (l.filter keepDocset).filter keepDocset = l.filter keepDocset) ∧
    (∀ (l : List Docset) (i : Docset),
      i ∈ l.filter keepDocset ↔ i ∈ l ∧ keepDocset i = true) := by
  refine ⟨fun i => ?_, fun l => ?_, fun l i => List.mem_filter⟩
  · unfold keepDocset
    cases hd : i.doc with
    | none =>
        cases hi : i.inheritdoc <;> simp [hd, hi, Option.isSome]
    | some d =>
        cases ht : todoTest d with
        | true => cases hi : i.inheritdoc <;> simp [hd, hi, ht, Option.isSome]
        | false => simp [hd, ht]
  · rw [List.filter_filter]
    simp

end JsdParser
